import Mathlib

/-
Verification of fix_contentservice.py: a script that reads one TypeScript
file, applies two Python re.sub substitutions to its text, writes the text
back and prints a confirmation line.  The two regular expressions use only
literals, single-character classes under greedy star and plus, the lazy
dot-star of DOTALL, concatenation and numbered capture groups, so the
engine below implements exactly those constructs with the backtracking
preference order of the re module (greedy: longest first, lazy: shortest
first), plus the leftmost scan-and-replace loop of re.sub.
-/

namespace CSFix

/-- Single quote character, code point 39. -/
def sq : Char := Char.ofNat 39

/-- Backslash character, code point 92. -/
def bsl : Char := Char.ofNat 92

/-- Left brace character, code point 123. -/
def lbr : Char := Char.ofNat 123

/-- Right brace character, code point 125. -/
def rbr : Char := Char.ofNat 125

/-- Python re whitespace class for str patterns: the characters with the
Unicode whitespace property, as matched by backslash-s. -/
def isPyWs (c : Char) : Bool :=
  let n := c.toNat
  (9 ≤ n && n ≤ 13) || (28 ≤ n && n ≤ 31) || n = 32 || n = 133 || n = 160 ||
  n = 0x1680 || (0x2000 ≤ n && n ≤ 0x200a) || n = 0x2028 || n = 0x2029 ||
  n = 0x202f || n = 0x205f || n = 0x3000

/-- The character classes occurring in the two patterns of the script:
backslash-s, the negated class excluding comma and right brace, and the
negated class excluding right brace. -/
inductive CC where
  | ws
  | noCommaBrace
  | noBrace
deriving DecidableEq

/-- Membership test of a character in a class. -/
def CC.mem : CC → Char → Bool
  | .ws, c => isPyWs c
  | .noCommaBrace, c => !(c == ',' || c == rbr)
  | .noBrace, c => !(c == rbr)

/-- Regex abstract syntax, restricted to the constructs used by the two
patterns of the script. starG and plusG are the greedy star and plus over
a single character class; starL is the lazy dot-star under DOTALL. -/
inductive RE where
  | eps
  | lit (l : List Char)
  | starG (c : CC)
  | plusG (c : CC)
  | starL
  | cat (r1 r2 : RE)
  | group (i : Nat) (r : RE)

/-- Capture environment: group index paired with captured text. -/
abbrev Caps := List (Nat × List Char)

/-- Length of the maximal prefix of s lying in class c. -/
def runOf (c : CC) : List Char → Nat
  | [] => 0
  | a :: s => if CC.mem c a then runOf c s + 1 else 0

/-- Descending list n, n-1, ..., 1. -/
def descList : Nat → List Nat
  | 0 => []
  | n + 1 => (n + 1) :: descList n

/-- All ways a regex can match a prefix of s, as pairs of captures and
remaining suffix, in the preference order of the backtracking engine of
the re module: for each construct the preferred alternative comes first,
and concatenation explores the left factor outermost. -/
def reMatches : RE → List Char → List (Caps × List Char)
  | .eps, s => [([], s)]
  | .lit l, s => if l.isPrefixOf s then [([], s.drop l.length)] else []
  | .starG c, s => (descList (runOf c s) ++ [0]).map (fun k => ([], s.drop k))
  | .plusG c, s => (descList (runOf c s)).map (fun k => ([], s.drop k))
  | .starL, s => (List.range (s.length + 1)).map (fun k => ([], s.drop k))
  | .cat r1 r2, s =>
      (reMatches r1 s).flatMap
        (fun p => (reMatches r2 p.2).map (fun q => (p.1 ++ q.1, q.2)))
  | .group i r, s =>
      (reMatches r s).map
        (fun p => ((i, s.take (s.length - p.2.length)) :: p.1, p.2))

/-- Leftmost match: scan the start positions of s from the left and return
the unmatched prefix, the captures of the first successful match, and the
suffix following the matched text, as the scanner of re.sub does. -/
def firstMatch (r : RE) : List Char → Option (List Char × Caps × List Char)
  | [] => (reMatches r []).head?.map (fun p => (([] : List Char), p.1, p.2))
  | a :: s =>
    match (reMatches r (a :: s)).head? with
    | some p => some ([], p.1, p.2)
    | none => (firstMatch r s).map (fun q => (a :: q.1, q.2.1, q.2.2))

/-- One pass of re.sub with explicit fuel: repeatedly find the leftmost
match, emit the instantiated replacement in place of the matched text and
continue after it.  An empty match emits the replacement and advances one
character, as re.sub does; the two patterns of the script can never match
the empty string, so that branch is unreachable for them. -/
def scanSubFuel (r : RE) (tpl : Caps → List Char) : Nat → List Char → List Char
  | 0, s => s
  | fuel + 1, s =>
    match firstMatch r s with
    | none => s
    | some (pre, caps, suf) =>
      if s.length = pre.length + suf.length then
        match suf with
        | [] => pre ++ tpl caps
        | a :: rest => pre ++ (tpl caps ++ (a :: scanSubFuel r tpl fuel rest))
      else pre ++ (tpl caps ++ scanSubFuel r tpl fuel suf)

/-- Global substitution, the model of re.sub applied to the whole text. -/
def scanSub (r : RE) (tpl : Caps → List Char) (s : List Char) : List Char :=
  scanSubFuel r tpl (s.length + 1) s

/-- Lookup of a capture group in the environment, empty if absent. -/
def getCap (caps : Caps) (i : Nat) : List Char :=
  match caps.lookup i with
  | some t => t
  | none => []

/-- Shared head of both patterns, group 1:
backslash-s+ return backslash-s+ brace backslash-s* success: backslash-s*
flag backslash-s* data: backslash-s* [^,brace]+ comma, where flag is the
literal true-comma for rule A and false-comma for rule B. -/
def retHead (flag : List Char) : RE :=
  .group 1 (.cat (.plusG .ws) (.cat (.lit "return".data) (.cat (.plusG .ws)
    (.cat (.lit "\x7b".data) (.cat (.starG .ws) (.cat (.lit "success:".data)
    (.cat (.starG .ws) (.cat (.lit flag) (.cat (.starG .ws)
    (.cat (.lit "data:".data) (.cat (.starG .ws)
    (.cat (.plusG .noCommaBrace) (.lit ",".data)))))))))))))

/-- Closing part shared by both patterns:
backslash-s* brace-semicolon backslash-s*, captured as a group. -/
def closeGrp (i : Nat) : RE :=
  .group i (.cat (.starG .ws) (.cat (.lit "\x7d;".data) (.starG .ws)))

/-- Rule A pattern, transcribed from line 10 of the script. -/
def ruleA : RE :=
  .cat (retHead "true,".data) (.cat (.starG .ws) (.cat (.lit "message:".data)
    (.cat (.starG .ws) (.cat (.plusG .noBrace) (closeGrp 2)))))

/-- Rule B pattern, transcribed from line 18 of the script. -/
def ruleB : RE :=
  .cat (retHead "false,".data) (.cat (.starG .ws) (.cat (.lit "message:".data)
    (.cat (.starG .ws) (.cat (.group 2 (.cat (.lit "error.response".data) .starL))
    (.cat (.starG .ws) (closeGrp 3))))))

/-- Fixed text inserted by both replacement templates in place of the
message field. -/
def tsLit : List Char := " timestamp: new Date().toISOString()".data

/-- Replacement template of rule A, from line 11 of the script:
group 1, the timestamp literal, group 2. -/
def tplA (caps : Caps) : List Char :=
  getCap caps 1 ++ (tsLit ++ getCap caps 2)

/-- Opening of the error object inserted by rule B.  The replacement is a
raw Python string, so each backslash-quote pair around SERVICE_ERROR keeps
its backslash, and re.sub copies unknown non-letter escapes verbatim: the
inserted text therefore contains a literal backslash before each quote. -/
def errOpen : List Char :=
  " error: \x7b code: ".data ++ ([bsl, sq] ++ ("SERVICE_ERROR".data ++ ([bsl, sq] ++ ", message: ".data)))

/-- Closing of the error object inserted by rule B, with the timestamp. -/
def errClose : List Char := " \x7d, timestamp: new Date().toISOString()".data

/-- Replacement template of rule B, from line 19 of the script:
group 1, the error object wrapping group 2, the timestamp, group 3. -/
def tplB (caps : Caps) : List Char :=
  getCap caps 1 ++ (errOpen ++ (getCap caps 2 ++ (errClose ++ getCap caps 3)))

/-- The first substitution of the script, lines 9 to 14. -/
def subA (s : List Char) : List Char := scanSub ruleA tplA s

/-- The second substitution of the script, lines 17 to 22. -/
def subB (s : List Char) : List Char := scanSub ruleB tplB s

/-- The whole text transformation of the script: rule A then rule B. -/
def transform (s : List Char) : List Char := subB (subA s)

/-- The text transformation on strings. -/
def transformStr (s : String) : String := String.mk (transform s.data)

/-- Syntactic test that every text accepted by a regex is nonempty. -/
def reNonEmpty : RE → Bool
  | .eps => false
  | .lit l => !l.isEmpty
  | .starG _ => false
  | .plusG _ => true
  | .starL => false
  | .cat r1 r2 => reNonEmpty r1 || reNonEmpty r2
  | .group _ r => reNonEmpty r

/-- Declarative acceptance relation: the regex r accepts exactly the text t
producing the capture list c.  This is the specification against which the
executable matcher reMatches is proved sound. -/
inductive Accepts : RE → List Char → Caps → Prop where
  | eps : Accepts .eps [] []
  | lit (l : List Char) : Accepts (.lit l) l []
  | starG (c : CC) (t : List Char) (h : ∀ a ∈ t, CC.mem c a = true) :
      Accepts (.starG c) t []
  | plusG (c : CC) (t : List Char) (hne : t ≠ []) (h : ∀ a ∈ t, CC.mem c a = true) :
      Accepts (.plusG c) t []
  | starL (t : List Char) : Accepts .starL t []
  | cat (r1 r2 : RE) (t1 t2 : List Char) (c1 c2 : Caps)
      (h1 : Accepts r1 t1 c1) (h2 : Accepts r2 t2 c2) :
      Accepts (.cat r1 r2) (t1 ++ t2) (c1 ++ c2)
  | group (i : Nat) (r : RE) (t : List Char) (c : Caps) (h : Accepts r t c) :
      Accepts (.group i r) t ((i, t) :: c)

theorem head?_mem {α : Type} {l : List α} {a : α} (h : l.head? = some a) : a ∈ l := by
  cases l with
  | nil => simp at h
  | cons b l => simp at h; simp [h]

theorem isPrefixOf_eq_append :
    ∀ (l s : List Char), l.isPrefixOf s = true → s = l ++ s.drop l.length := by
  intro l
  induction l with
  | nil => intro s _; simp
  | cons a l ih =>
    intro s h
    cases s with
    | nil => simp [List.isPrefixOf] at h
    | cons b s =>
      simp only [List.isPrefixOf, Bool.and_eq_true, beq_iff_eq] at h
      obtain ⟨rfl, h2⟩ := h
      simpa using ih s h2

theorem mem_descList {k n : Nat} (h : k ∈ descList n) : 1 ≤ k ∧ k ≤ n := by
  induction n with
  | zero => simp [descList] at h
  | succ n ih =>
    simp only [descList, List.mem_cons] at h
    rcases h with rfl | h
    · omega
    · have := ih h; omega

theorem runOf_le_length (c : CC) : ∀ (s : List Char), runOf c s ≤ s.length := by
  intro s
  induction s with
  | nil => simp [runOf]
  | cons a s ih =>
    simp only [runOf, List.length_cons]
    split
    · omega
    · omega

theorem mem_take_runOf {c : CC} :
    ∀ {s : List Char} {k : Nat}, k ≤ runOf c s →
      ∀ a ∈ s.take k, CC.mem c a = true := by
  intro s
  induction s with
  | nil => intro k _ a ha; simp at ha
  | cons b s ih =>
    intro k hk a ha
    cases k with
    | zero => simp at ha
    | succ k =>
      simp only [runOf] at hk
      split at hk
      · simp only [List.take_succ_cons, List.mem_cons] at ha
        rcases ha with rfl | ha
        · assumption
        · exact ih (by omega) a ha
      · omega

theorem reMatches_sound (r : RE) :
    ∀ (s : List Char) (p : Caps × List Char),
      p ∈ reMatches r s → ∃ t, s = t ++ p.2 ∧ Accepts r t p.1 := by
  induction r with
  | eps =>
    intro s p hp
    simp only [reMatches, List.mem_singleton] at hp
    subst hp
    exact ⟨[], by simp, Accepts.eps⟩
  | lit l =>
    intro s p hp
    simp only [reMatches] at hp
    split at hp
    · simp only [List.mem_singleton] at hp
      subst hp
      exact ⟨l, by simpa using isPrefixOf_eq_append l s (by assumption), Accepts.lit l⟩
    · simp at hp
  | starG c =>
    intro s p hp
    simp only [reMatches, List.mem_map] at hp
    obtain ⟨k, hk, rfl⟩ := hp
    have hk' : k ≤ runOf c s := by
      rcases List.mem_append.mp hk with h | h
      · exact (mem_descList h).2
      · simp at h; omega
    exact ⟨s.take k, by simp, Accepts.starG c _ (mem_take_runOf hk')⟩
  | plusG c =>
    intro s p hp
    simp only [reMatches, List.mem_map] at hp
    obtain ⟨k, hk, rfl⟩ := hp
    have hk' := mem_descList hk
    have hkr : k ≤ runOf c s := hk'.2
    have hne : s.take k ≠ [] := by
      have h1 : (s.take k).length = min k s.length := List.length_take k s
      have h2 := runOf_le_length c s
      intro h0
      rw [h0] at h1
      simp at h1
      omega
    exact ⟨s.take k, by simp, Accepts.plusG c _ hne (mem_take_runOf hkr)⟩
  | starL =>
    intro s p hp
    simp only [reMatches, List.mem_map] at hp
    obtain ⟨k, _, rfl⟩ := hp
    exact ⟨s.take k, by simp, Accepts.starL _⟩
  | cat r1 r2 ih1 ih2 =>
    intro s p hp
    simp only [reMatches, List.mem_flatMap, List.mem_map] at hp
    obtain ⟨q1, hq1, q2, hq2, rfl⟩ := hp
    obtain ⟨t1, hs1, ha1⟩ := ih1 s q1 hq1
    obtain ⟨t2, hs2, ha2⟩ := ih2 q1.2 q2 hq2
    refine ⟨t1 ++ t2, ?_, Accepts.cat _ _ _ _ _ _ ha1 ha2⟩
    rw [hs1, hs2, List.append_assoc]
  | group i r ih =>
    intro s p hp
    simp only [reMatches, List.mem_map] at hp
    obtain ⟨q, hq, rfl⟩ := hp
    obtain ⟨t, hs, ha⟩ := ih s q hq
    have hlen : s.length - q.2.length = t.length := by rw [hs]; simp
    have htake : s.take (s.length - q.2.length) = t := by
      rw [hlen, hs, List.take_left]
    refine ⟨t, hs, ?_⟩
    simp only [htake]
    exact Accepts.group i r t q.1 ha

theorem firstMatch_sound {r : RE} :
    ∀ {s pre caps suf : _}, firstMatch r s = some (pre, caps, suf) →
      ∃ t, s = pre ++ (t ++ suf) ∧ Accepts r t caps := by
  intro s
  induction s with
  | nil =>
    intro pre caps suf h
    simp only [firstMatch, Option.map_eq_some'] at h
    obtain ⟨p, hp, heq⟩ := h
    obtain ⟨t, ht, ha⟩ := reMatches_sound r [] p (head?_mem hp)
    obtain ⟨rfl, rfl, rfl⟩ : pre = [] ∧ caps = p.1 ∧ suf = p.2 := by
      injection heq with h1 h2
      injection h2 with h2 h3
      exact ⟨h1.symm, h2.symm, h3.symm⟩
    exact ⟨t, by simpa using ht, ha⟩
  | cons a s ih =>
    intro pre caps suf h
    simp only [firstMatch] at h
    cases hh : (reMatches r (a :: s)).head? with
    | some p =>
      rw [hh] at h
      have h' : (some (([] : List Char), p.1, p.2) : Option (List Char × Caps × List Char))
          = some (pre, caps, suf) := h
      obtain ⟨t, ht, ha⟩ := reMatches_sound r (a :: s) p (head?_mem hh)
      obtain ⟨rfl, rfl, rfl⟩ : pre = [] ∧ caps = p.1 ∧ suf = p.2 := by
        injection h' with h1
        injection h1 with h1 h2
        injection h2 with h2 h3
        exact ⟨h1.symm, h2.symm, h3.symm⟩
      exact ⟨t, by simpa using ht, ha⟩
    | none =>
      rw [hh] at h
      simp only [Option.map_eq_some'] at h
      obtain ⟨q, hq, heq⟩ := h
      obtain ⟨rfl, rfl, rfl⟩ : pre = a :: q.1 ∧ caps = q.2.1 ∧ suf = q.2.2 := by
        injection heq with h1 h2
        injection h2 with h2 h3
        exact ⟨h1.symm, h2.symm, h3.symm⟩
      obtain ⟨t, ht, ha⟩ := ih (show firstMatch r s = some (q.1, q.2.1, q.2.2) from hq)
      exact ⟨t, by rw [List.cons_append, ← ht], ha⟩

theorem accepts_ne {r : RE} {t : List Char} {c : Caps} (h : Accepts r t c) :
    reNonEmpty r = true → t ≠ [] := by
  induction h with
  | eps => simp [reNonEmpty]
  | lit l =>
    intro hl
    simp only [reNonEmpty, Bool.not_eq_true'] at hl
    simpa [List.isEmpty_iff] using hl
  | starG => simp [reNonEmpty]
  | plusG c t hne => intro _; exact hne
  | starL => simp [reNonEmpty]
  | cat r1 r2 t1 t2 c1 c2 h1 h2 ih1 ih2 =>
    intro hh
    simp only [reNonEmpty, Bool.or_eq_true] at hh
    rcases hh with hh | hh
    · simp [List.append_eq_nil]
      intro h0 _
      exact ih1 hh h0
    · simp [List.append_eq_nil]
      intro _ h0
      exact ih2 hh h0
  | group i r t c h ih =>
    intro hh
    simp only [reNonEmpty] at hh
    exact ih hh

theorem scanSubFuel_succ_none {r : RE} {tpl : Caps → List Char} {fuel : Nat}
    {s : List Char} (h : firstMatch r s = none) :
    scanSubFuel r tpl (fuel + 1) s = s := by
  simp only [scanSubFuel]
  rw [h]

theorem scanSubFuel_succ_pos {r : RE} {tpl : Caps → List Char} {fuel : Nat}
    {s pre suf : List Char} {caps : Caps}
    (h : firstMatch r s = some (pre, caps, suf))
    (hz : s.length ≠ pre.length + suf.length) :
    scanSubFuel r tpl (fuel + 1) s = pre ++ (tpl caps ++ scanSubFuel r tpl fuel suf) := by
  simp only [scanSubFuel]
  split
  · simp_all
  · rename_i pre2 caps2 suf2 heq
    rw [h] at heq
    injection heq with heq
    injection heq with h1 heq
    injection heq with h2 h3
    subst h1; subst h2; subst h3
    rw [if_neg hz]

theorem scanSubFuel_succ_zero_nil {r : RE} {tpl : Caps → List Char} {fuel : Nat}
    {s pre : List Char} {caps : Caps}
    (h : firstMatch r s = some (pre, caps, []))
    (hz : s.length = pre.length + ([] : List Char).length) :
    scanSubFuel r tpl (fuel + 1) s = pre ++ tpl caps := by
  simp only [scanSubFuel]
  split
  · simp_all
  · rename_i pre2 caps2 suf2 heq
    rw [h] at heq
    injection heq with heq
    injection heq with h1 heq
    injection heq with h2 h3
    subst h1; subst h2; subst h3
    rw [if_pos hz]

theorem scanSubFuel_succ_zero_cons {r : RE} {tpl : Caps → List Char} {fuel : Nat}
    {s pre rest : List Char} {a : Char} {caps : Caps}
    (h : firstMatch r s = some (pre, caps, a :: rest))
    (hz : s.length = pre.length + (a :: rest).length) :
    scanSubFuel r tpl (fuel + 1) s
      = pre ++ (tpl caps ++ (a :: scanSubFuel r tpl fuel rest)) := by
  simp only [scanSubFuel]
  split
  · simp_all
  · rename_i pre2 caps2 suf2 heq
    rw [h] at heq
    injection heq with heq
    injection heq with h1 heq
    injection heq with h2 h3
    subst h1; subst h2; subst h3
    rw [if_pos hz]

theorem scanSubFuel_congr (r : RE) (tpl : Caps → List Char) :
    ∀ (f1 f2 : Nat) (s : List Char), s.length < f1 → s.length < f2 →
      scanSubFuel r tpl f1 s = scanSubFuel r tpl f2 s := by
  intro f1
  induction f1 with
  | zero => intro f2 s h1 _; omega
  | succ f1 ih =>
    intro f2 s h1 h2
    cases f2 with
    | zero => omega
    | succ f2 =>
      cases hfm : firstMatch r s with
      | none => rw [scanSubFuel_succ_none hfm, scanSubFuel_succ_none hfm]
      | some m =>
        obtain ⟨pre, caps, suf⟩ := m
        obtain ⟨t, hs, hacc⟩ := firstMatch_sound hfm
        have hlen : s.length = pre.length + (t.length + suf.length) := by
          rw [hs]; simp
        by_cases hz : s.length = pre.length + suf.length
        · cases suf with
          | nil =>
            rw [scanSubFuel_succ_zero_nil hfm hz, scanSubFuel_succ_zero_nil hfm hz]
          | cons a rest =>
            have hr1 : rest.length < f1 := by
              simp only [List.length_cons] at hz; omega
            have hr2 : rest.length < f2 := by
              simp only [List.length_cons] at hz; omega
            rw [scanSubFuel_succ_zero_cons hfm hz, scanSubFuel_succ_zero_cons hfm hz,
              ih f2 rest hr1 hr2]
        · have htpos : 0 < t.length := by
            rcases Nat.eq_zero_or_pos t.length with h0 | h0
            · exact absurd (by omega) hz
            · exact h0
          have hs1 : suf.length < f1 := by omega
          have hs2 : suf.length < f2 := by omega
          rw [scanSubFuel_succ_pos hfm hz, scanSubFuel_succ_pos hfm hz,
            ih f2 suf hs1 hs2]

theorem scanSub_none {r : RE} {tpl : Caps → List Char} {s : List Char}
    (h : firstMatch r s = none) : scanSub r tpl s = s := by
  unfold scanSub
  exact scanSubFuel_succ_none h

theorem scanSub_some {r : RE} {tpl : Caps → List Char} {s pre suf : List Char}
    {caps : Caps} (h : firstMatch r s = some (pre, caps, suf))
    (hne : reNonEmpty r = true) :
    scanSub r tpl s = pre ++ (tpl caps ++ scanSub r tpl suf) := by
  obtain ⟨t, hs, hacc⟩ := firstMatch_sound h
  have htne := accepts_ne hacc hne
  have htpos : 0 < t.length := List.length_pos.mpr htne
  have hlen : s.length = pre.length + (t.length + suf.length) := by
    rw [hs]; simp
  unfold scanSub
  rw [scanSubFuel_succ_pos h (by omega)]
  rw [scanSubFuel_congr r tpl s.length (suf.length + 1) suf (by omega) (by omega)]

theorem accepts_lit_inv {l t : List Char} {c : Caps}
    (h : Accepts (.lit l) t c) : t = l ∧ c = [] := by
  cases h; exact ⟨rfl, rfl⟩

theorem accepts_starG_inv {cc : CC} {t : List Char} {c : Caps}
    (h : Accepts (.starG cc) t c) :
    (∀ a ∈ t, CC.mem cc a = true) ∧ c = [] := by
  cases h with
  | starG _ _ hmem => exact ⟨hmem, rfl⟩

theorem accepts_plusG_inv {cc : CC} {t : List Char} {c : Caps}
    (h : Accepts (.plusG cc) t c) :
    t ≠ [] ∧ (∀ a ∈ t, CC.mem cc a = true) ∧ c = [] := by
  cases h with
  | plusG _ _ hne hmem => exact ⟨hne, hmem, rfl⟩

theorem accepts_cat_inv {r1 r2 : RE} {t : List Char} {c : Caps}
    (h : Accepts (.cat r1 r2) t c) :
    ∃ t1 t2 c1 c2, Accepts r1 t1 c1 ∧ Accepts r2 t2 c2 ∧
      t = t1 ++ t2 ∧ c = c1 ++ c2 := by
  cases h with
  | cat _ _ t1 t2 c1 c2 h1 h2 => exact ⟨t1, t2, c1, c2, h1, h2, rfl, rfl⟩

theorem accepts_group_inv {i : Nat} {r : RE} {t : List Char} {c : Caps}
    (h : Accepts (.group i r) t c) :
    ∃ c0, Accepts r t c0 ∧ c = (i, t) :: c0 := by
  cases h with
  | group _ _ _ c0 h0 => exact ⟨c0, h0, rfl⟩

/-- Every character of w is Python whitespace. -/
def WsStr (w : List Char) : Prop := ∀ a ∈ w, isPyWs a = true

/-- Shape of the text captured by group 1 of either rule: whitespace, the
return keyword, whitespace, the opening brace, the success flag and the
data expression up to and including its comma; the data expression is
nonempty and free of commas and right braces. -/
def HeadShape (flag g1 : List Char) : Prop :=
  ∃ w1 w2 w3 w4 w5 w6 d,
    g1 = w1 ++ ("return".data ++ (w2 ++ ("\x7b".data ++ (w3 ++ ("success:".data ++
      (w4 ++ (flag ++ (w5 ++ ("data:".data ++ (w6 ++ (d ++ ",".data))))))))))) ∧
    WsStr w1 ∧ w1 ≠ [] ∧ WsStr w2 ∧ w2 ≠ [] ∧ WsStr w3 ∧ WsStr w4 ∧ WsStr w5 ∧
    WsStr w6 ∧ d ≠ [] ∧ (∀ a ∈ d, a ≠ ',' ∧ a ≠ rbr)

/-- Shape of the closing capture group of either rule: optional whitespace,
a right brace directly followed by a semicolon, optional whitespace. -/
def CloseShape (g : List Char) : Prop :=
  ∃ z1 z2, g = z1 ++ ("\x7d;".data ++ z2) ∧ WsStr z1 ∧ WsStr z2

theorem noCommaBrace_char {a : Char} (h : CC.mem .noCommaBrace a = true) :
    a ≠ ',' ∧ a ≠ rbr := by
  simp only [CC.mem, Bool.not_eq_eq_eq_not, Bool.not_true, Bool.or_eq_false_iff,
    beq_eq_false_iff_ne] at h
  exact h

theorem noBrace_char {a : Char} (h : CC.mem .noBrace a = true) : a ≠ rbr := by
  simp only [CC.mem, Bool.not_eq_eq_eq_not, Bool.not_true, beq_eq_false_iff_ne] at h
  exact h

theorem accepts_retHead_inv {flag t : List Char} {c : Caps}
    (h : Accepts (retHead flag) t c) : HeadShape flag t ∧ c = [(1, t)] := by
  unfold retHead at h
  obtain ⟨c0, h1, rfl⟩ := accepts_group_inv h
  obtain ⟨w1, t2, a1, a2, hw1, h2, rfl, rfl⟩ := accepts_cat_inv h1
  obtain ⟨hne1, hws1, rfl⟩ := accepts_plusG_inv hw1
  obtain ⟨l1, t3, b1, b2, hl1, h3, rfl, rfl⟩ := accepts_cat_inv h2
  obtain ⟨rfl, rfl⟩ := accepts_lit_inv hl1
  obtain ⟨w2, t4, a3, a4, hw2, h4, rfl, rfl⟩ := accepts_cat_inv h3
  obtain ⟨hne2, hws2, rfl⟩ := accepts_plusG_inv hw2
  obtain ⟨l2, t5, b3, b4, hl2, h5, rfl, rfl⟩ := accepts_cat_inv h4
  obtain ⟨rfl, rfl⟩ := accepts_lit_inv hl2
  obtain ⟨w3, t6, a5, a6, hw3, h6, rfl, rfl⟩ := accepts_cat_inv h5
  obtain ⟨hws3, rfl⟩ := accepts_starG_inv hw3
  obtain ⟨l3, t7, b5, b6, hl3, h7, rfl, rfl⟩ := accepts_cat_inv h6
  obtain ⟨rfl, rfl⟩ := accepts_lit_inv hl3
  obtain ⟨w4, t8, a7, a8, hw4, h8, rfl, rfl⟩ := accepts_cat_inv h7
  obtain ⟨hws4, rfl⟩ := accepts_starG_inv hw4
  obtain ⟨l4, t9, b7, b8, hl4, h9, rfl, rfl⟩ := accepts_cat_inv h8
  obtain ⟨rfl, rfl⟩ := accepts_lit_inv hl4
  obtain ⟨w5, t10, a9, a10, hw5, h10, rfl, rfl⟩ := accepts_cat_inv h9
  obtain ⟨hws5, rfl⟩ := accepts_starG_inv hw5
  obtain ⟨l5, t11, b9, b10, hl5, h11, rfl, rfl⟩ := accepts_cat_inv h10
  obtain ⟨rfl, rfl⟩ := accepts_lit_inv hl5
  obtain ⟨w6, t12, a11, a12, hw6, h12, rfl, rfl⟩ := accepts_cat_inv h11
  obtain ⟨hws6, rfl⟩ := accepts_starG_inv hw6
  obtain ⟨d, t13, b11, b12, hd, hl6, rfl, rfl⟩ := accepts_cat_inv h12
  obtain ⟨hdne, hdcc, rfl⟩ := accepts_plusG_inv hd
  obtain ⟨rfl, rfl⟩ := accepts_lit_inv hl6
  constructor
  · exact ⟨w1, w2, w3, w4, w5, w6, d, rfl, hws1, hne1, hws2, hne2, hws3, hws4,
      hws5, hws6, hdne, fun a ha => noCommaBrace_char (hdcc a ha)⟩
  · simp

theorem accepts_closeGrp_inv {i : Nat} {t : List Char} {c : Caps}
    (h : Accepts (closeGrp i) t c) : CloseShape t ∧ c = [(i, t)] := by
  unfold closeGrp at h
  obtain ⟨c0, h1, rfl⟩ := accepts_group_inv h
  obtain ⟨z1, t2, a1, a2, hz1, h2, rfl, rfl⟩ := accepts_cat_inv h1
  obtain ⟨hws1, rfl⟩ := accepts_starG_inv hz1
  obtain ⟨l1, z2, b1, b2, hl1, hz2, rfl, rfl⟩ := accepts_cat_inv h2
  obtain ⟨rfl, rfl⟩ := accepts_lit_inv hl1
  obtain ⟨hws2, rfl⟩ := accepts_starG_inv hz2
  exact ⟨⟨z1, z2, rfl, hws1, hws2⟩, by simp⟩

theorem accepts_ruleA_inv {t : List Char} {c : Caps} (h : Accepts ruleA t c) :
    ∃ g1 wa wb m g2,
      t = g1 ++ (wa ++ ("message:".data ++ (wb ++ (m ++ g2)))) ∧
      c = [(1, g1), (2, g2)] ∧
      HeadShape "true,".data g1 ∧ WsStr wa ∧ WsStr wb ∧
      m ≠ [] ∧ (∀ a ∈ m, a ≠ rbr) ∧ CloseShape g2 := by
  unfold ruleA at h
  obtain ⟨g1, trest, c1, c2, hg1, h1, rfl, rfl⟩ := accepts_cat_inv h
  obtain ⟨hshape, rfl⟩ := accepts_retHead_inv hg1
  obtain ⟨wa, t3, a1, a2, hwa, h2, rfl, rfl⟩ := accepts_cat_inv h1
  obtain ⟨hwaws, rfl⟩ := accepts_starG_inv hwa
  obtain ⟨l1, t4, b1, b2, hl1, h3, rfl, rfl⟩ := accepts_cat_inv h2
  obtain ⟨rfl, rfl⟩ := accepts_lit_inv hl1
  obtain ⟨wb, t5, a3, a4, hwb, h4, rfl, rfl⟩ := accepts_cat_inv h3
  obtain ⟨hwbws, rfl⟩ := accepts_starG_inv hwb
  obtain ⟨m, g2, a5, a6, hm, hg2, rfl, rfl⟩ := accepts_cat_inv h4
  obtain ⟨hmne, hmcc, rfl⟩ := accepts_plusG_inv hm
  obtain ⟨hclose, rfl⟩ := accepts_closeGrp_inv hg2
  exact ⟨g1, wa, wb, m, g2, rfl, by simp, hshape, hwaws, hwbws, hmne,
    (fun a ha => noBrace_char (hmcc a ha)), hclose⟩

theorem accepts_ruleB_inv {t : List Char} {c : Caps} (h : Accepts ruleB t c) :
    ∃ g1 wa wb lz wc g3,
      t = g1 ++ (wa ++ ("message:".data ++ (wb ++ (("error.response".data ++ lz)
        ++ (wc ++ g3))))) ∧
      c = [(1, g1), (2, "error.response".data ++ lz), (3, g3)] ∧
      HeadShape "false,".data g1 ∧ WsStr wa ∧ WsStr wb ∧ WsStr wc ∧
      CloseShape g3 := by
  unfold ruleB at h
  obtain ⟨g1, trest, c1, c2, hg1, h1, rfl, rfl⟩ := accepts_cat_inv h
  obtain ⟨hshape, rfl⟩ := accepts_retHead_inv hg1
  obtain ⟨wa, t3, a1, a2, hwa, h2, rfl, rfl⟩ := accepts_cat_inv h1
  obtain ⟨hwaws, rfl⟩ := accepts_starG_inv hwa
  obtain ⟨l1, t4, b1, b2, hl1, h3, rfl, rfl⟩ := accepts_cat_inv h2
  obtain ⟨rfl, rfl⟩ := accepts_lit_inv hl1
  obtain ⟨wb, t5, a3, a4, hwb, h4, rfl, rfl⟩ := accepts_cat_inv h3
  obtain ⟨hwbws, rfl⟩ := accepts_starG_inv hwb
  obtain ⟨te, t6, a5, a6, he, h5, rfl, rfl⟩ := accepts_cat_inv h4
  obtain ⟨c0, he1, rfl⟩ := accepts_group_inv he
  obtain ⟨l2, lz, b3, b4, hl2, hlz, rfl, rfl⟩ := accepts_cat_inv he1
  obtain ⟨rfl, rfl⟩ := accepts_lit_inv hl2
  have hb4 : b4 = [] := by cases hlz; rfl
  subst hb4
  obtain ⟨wc, g3, a7, a8, hwc, hg3, rfl, rfl⟩ := accepts_cat_inv h5
  obtain ⟨hwcws, rfl⟩ := accepts_starG_inv hwc
  obtain ⟨hclose, rfl⟩ := accepts_closeGrp_inv hg3
  exact ⟨g1, wa, wb, lz, wc, g3, rfl, by simp, hshape, hwaws, hwbws, hwcws, hclose⟩

/-- Boolean test that pat occurs as a contiguous segment of s. -/
def containsSeg (pat : List Char) : List Char → Bool
  | [] => pat.isPrefixOf []
  | a :: rest => pat.isPrefixOf (a :: rest) || containsSeg pat rest

/-- Effects the script performs on its environment, in program order. -/
inductive Effect where
  | readFile (path enc : String)
  | writeFile (path enc content : String)
  | printLine (msg : String)
deriving DecidableEq

/-- Test selecting the print effects of a trace. -/
def isPrintEff : Effect → Bool
  | .printLine _ => true
  | _ => false

/-- Test selecting the read effects of a trace. -/
def isReadEff : Effect → Bool
  | .readFile _ _ => true
  | _ => false

/-- Test selecting the write effects of a trace. -/
def isWriteEff : Effect → Bool
  | .writeFile _ _ _ => true
  | _ => false

/-- Fixed relative path hard-coded in both open calls of the script. -/
def targetPath : String := "frontend/src/features/admin/services/contentService.ts"

/-- Encoding named in both open calls of the script. -/
def utf8 : String := "utf-8"

/-- Confirmation line printed by the script after the write. -/
def doneMsg : String := "Fixed contentService.ts"

/-- Model of one run of the script.  readResult is the outcome of opening,
reading and UTF-8-decoding the target file: none when any of these fails,
in which case the uncaught exception terminates the process before the
write statement is reached.  disk is the on-disk content of the target
file before the run; the result is the on-disk content after the run
together with the trace of effects in program order: read, then write of
the fully transformed text over the old content, then the print. -/
def runScript (readResult : Option String) (disk : String) : String × List Effect :=
  match readResult with
  | none => (disk, [Effect.readFile targetPath utf8])
  | some c =>
      (transformStr c,
        [Effect.readFile targetPath utf8,
         Effect.writeFile targetPath utf8 (transformStr c),
         Effect.printLine doneMsg])

/-- Ambient process environment: wall clock, argument vector, environment
variables.  The script imports only the re module and never reads argv,
environment variables or a clock, so its run ignores every field. -/
structure Env where
  now : String
  argv : List String
  vars : List (String × String)

/-- Run of the script inside an ambient environment.  The body consults
only the read result and the disk, matching the source, which contains no
reference to time, arguments or environment variables. -/
def runScriptEnv (_env : Env) (readResult : Option String) (disk : String) :
    String × List Effect :=
  runScript readResult disk

/- Concrete texts used to separate the claims from the code. -/

def c1cex : List Char :=
  "\n return \x7b success: true, data: x, message: y \x7d\n".data

def c1wit : List Char :=
  "\n return \x7b success: true, data: a, message: b \x7d;\n".data

def c1witCaps : Caps :=
  [(1, "\n return \x7b success: true, data: a,".data), (2, "\x7d;\n".data)]

def c2in : List Char :=
  "\n return \x7b success: false, data: null, message: error.response.data \x7d;\n".data

def c2out : List Char :=
  "\n return \x7b success: false, data: null, error: \x7b code: ".data ++
    ([bsl, sq] ++ ("SERVICE_ERROR".data ++ ([bsl, sq] ++
      (", message: error.response.data \x7d, timestamp: new Date().toISOString()\x7d;\n".data))))

def c3in : List Char :=
  (" return \x7b success: true, data: a, message: b \x7d;\n" ++
   " return \x7b success: true, data: c, message: d \x7d;").data

def c3wit : List Char :=
  "\n return \x7b success: true, data: e, message: f \x7d;\n".data

def c4wit : List Char :=
  "\n return \x7b success: false, data: null, message: netfail \x7d;\n".data

def c5in : List Char :=
  (" return \x7b success: true, data: q, message:" ++
   " return \x7b success: true, data: f(a,b), message: y \x7d;").data

def c5witA : List Char :=
  "\n return \x7b success: true, data: z, message: w \x7d;\n".data

def c5witACaps : Caps :=
  [(1, "\n return \x7b success: true, data: z,".data), (2, "\x7d;\n".data)]

def c5witB : List Char :=
  "\n return \x7b success: false, data: nil, message: error.response.err \x7d;\n".data

def c5witBCaps : Caps :=
  [(1, "\n return \x7b success: false, data: nil,".data),
   (2, "error.response.err".data), (3, "\x7d;\n".data)]

def c6in : List Char :=
  (" return \x7b success: true, data: a, message: \n" ++
   " return \x7b success: false, data: b, message: error.response.q \x7d;").data

def c6wit : List Char :=
  "\n return \x7b success: false, data: g, message: error.response.h \x7d;\n".data

set_option maxRecDepth 1000000

/-- Claim C1, counterexample: the input holds a success-true return block of
the literal shape named by the claim but with no semicolon after the
closing brace; rule A requires the brace-semicolon terminator, so the
transformation leaves the text unchanged, the message field survives and
no timestamp field appears, contradicting the claim as stated. -/
theorem claim1_counterexample :
    transform c1cex = c1cex ∧
    containsSeg "message: y".data (transform c1cex) = true ∧
    containsSeg "timestamp".data (transform c1cex) = false := by
  refine ⟨by decide, by decide, by decide⟩

/-- Claim C1, amended: whenever rule A matches, the matched text splits
into group 1 (the success-true head up to the data comma), whitespace, the
message field, and group 2 (the brace-semicolon tail), and the
substitution rewrites exactly that occurrence to group 1 followed by the
literal timestamp text followed by group 2, with the surrounding text kept
and later matches handled recursively. -/
theorem claim1_ruleA_rewrite (s pre suf : List Char) (caps : Caps)
    (h : firstMatch ruleA s = some (pre, caps, suf)) :
    ∃ g1 wa wb m g2,
      s = pre ++ ((g1 ++ (wa ++ ("message:".data ++ (wb ++ (m ++ g2))))) ++ suf) ∧
      getCap caps 1 = g1 ∧ getCap caps 2 = g2 ∧
      HeadShape "true,".data g1 ∧ WsStr wa ∧ WsStr wb ∧ m ≠ [] ∧
      (∀ a ∈ m, a ≠ rbr) ∧ CloseShape g2 ∧
      subA s = pre ++ ((g1 ++ (tsLit ++ g2)) ++ subA suf) := by
  obtain ⟨t, hs, hacc⟩ := firstMatch_sound h
  obtain ⟨g1, wa, wb, m, g2, rfl, hcaps, hshape, hwa, hwb, hmne, hmbr, hclose⟩ :=
    accepts_ruleA_inv hacc
  subst hcaps
  refine ⟨g1, wa, wb, m, g2, hs, rfl, rfl, hshape, hwa, hwb, hmne, hmbr, hclose, ?_⟩
  show scanSub ruleA tplA s = _
  rw [scanSub_some h (by decide)]
  rfl

/-- Claim C1, witness: the amended theorem evaluated on a one-block input
in matched shape. -/
theorem claim1_witness :
    ∃ g1 wa wb m g2,
      c1wit = ([] : List Char) ++
        ((g1 ++ (wa ++ ("message:".data ++ (wb ++ (m ++ g2))))) ++ ([] : List Char)) ∧
      getCap c1witCaps 1 = g1 ∧ getCap c1witCaps 2 = g2 ∧
      HeadShape "true,".data g1 ∧ WsStr wa ∧ WsStr wb ∧ m ≠ [] ∧
      (∀ a ∈ m, a ≠ rbr) ∧ CloseShape g2 ∧
      subA c1wit = ([] : List Char) ++
        ((g1 ++ (tsLit ++ g2)) ++ subA ([] : List Char)) :=
  claim1_ruleA_rewrite c1wit [] [] c1witCaps (by decide)

/-- Claim C2: evaluation of the code at the failing input.  The spec and
the claim say the inserted error object reads code: quote SERVICE_ERROR
quote; the replacement template in the source is a raw Python string, so
each backslash-quote pair keeps its backslash and re.sub copies the
unknown non-letter escape verbatim: the output carries a literal backslash
before each quote, which the equality below exhibits character for
character. -/
theorem claim2_code_eval :
    transform c2in = c2out ∧
    bsl ∈ transform c2in ∧
    containsSeg ([bsl, sq] ++ ("SERVICE_ERROR".data ++ [bsl, sq])) (transform c2in) = true ∧
    containsSeg "error.response.data".data (transform c2in) = true := by
  refine ⟨by decide, by decide, by decide, by decide⟩

/-- Claim C3, counterexample: two matching blocks separated only by
whitespace.  The trailing whitespace of the first match swallows the
whitespace the second block needs in front of its return keyword, so the
first pass rewrites only the first block; the reinserted group 2 restores
the whitespace, and a second pass rewrites the second block, so applying
the transformation twice differs from applying it once. -/
theorem claim3_counterexample :
    transform (transform c3in) ≠ transform c3in := by decide

/-- Claim C3, amended: the transformation is idempotent on every text
whose once-transformed form matches neither rule; in particular blocks
already rewritten are never matched again, but whitespace-adjacent block
pairs as in the counterexample leave a match behind after one pass. -/
theorem claim3_idempotent_on_settled (s : List Char)
    (hA : firstMatch ruleA (transform s) = none)
    (hB : firstMatch ruleB (transform s) = none) :
    transform (transform s) = transform s := by
  have h1 : subA (transform s) = transform s := scanSub_none hA
  have h2 : subB (transform s) = transform s := scanSub_none hB
  calc transform (transform s) = subB (subA (transform s)) := rfl
    _ = subB (transform s) := by rw [h1]
    _ = transform s := h2

/-- Claim C3, witness: the amended theorem evaluated on a one-block input,
whose transformed form matches neither rule. -/
theorem claim3_witness :
    firstMatch ruleA (transform c3wit) = none ∧
    firstMatch ruleB (transform c3wit) = none ∧
    transform (transform c3wit) = transform c3wit :=
  ⟨by decide, by decide, claim3_idempotent_on_settled c3wit (by decide) (by decide)⟩

/-- Claim C4: text outside the matches is preserved.  When a rule finds no
match its substitution is the identity; when it finds one, the input
splits as unmatched prefix, matched text, rest, and the output keeps the
prefix verbatim, replaces only the matched text and recurses on the rest;
when neither rule matches anywhere the whole transformation returns the
input unchanged. -/
theorem claim4_frame (s : List Char) :
    (firstMatch ruleA s = none → subA s = s) ∧
    (firstMatch ruleB s = none → subB s = s) ∧
    (∀ pre caps suf, firstMatch ruleA s = some (pre, caps, suf) →
      ∃ t, s = pre ++ (t ++ suf) ∧ subA s = pre ++ (tplA caps ++ subA suf)) ∧
    (∀ pre caps suf, firstMatch ruleB s = some (pre, caps, suf) →
      ∃ t, s = pre ++ (t ++ suf) ∧ subB s = pre ++ (tplB caps ++ subB suf)) ∧
    (firstMatch ruleA s = none → firstMatch ruleB s = none → transform s = s) := by
  refine ⟨fun hA => scanSub_none hA, fun hB => scanSub_none hB, ?_, ?_, ?_⟩
  · intro pre caps suf h
    obtain ⟨t, hs, _⟩ := firstMatch_sound h
    exact ⟨t, hs, scanSub_some h (by decide)⟩
  · intro pre caps suf h
    obtain ⟨t, hs, _⟩ := firstMatch_sound h
    exact ⟨t, hs, scanSub_some h (by decide)⟩
  · intro hA hB
    have h1 : subA s = s := scanSub_none hA
    have h2 : subB s = s := scanSub_none hB
    calc transform s = subB (subA s) := rfl
      _ = subB s := by rw [h1]
      _ = s := h2

/-- Claim C4, witness: a success-false block whose message does not begin
with error dot response matches neither rule, and the written text equals
the read text exactly. -/
theorem claim4_witness :
    firstMatch ruleA c4wit = none ∧
    firstMatch ruleB c4wit = none ∧
    transform c4wit = c4wit :=
  ⟨by decide, by decide, (claim4_frame c4wit).2.2.2.2 (by decide) (by decide)⟩

/-- Claim C5, counterexample: a success-true return block whose data
expression contains a comma is not left unchanged on every input: here it
sits inside the message of an enclosing matching block, the enclosing
match swallows it, and the rewritten text no longer contains it. -/
theorem claim5_counterexample :
    containsSeg "data: f(a,b)".data c5in = true ∧
    containsSeg "data: f(a,b)".data (transform c5in) = false := by
  refine ⟨by decide, by decide⟩

/-- Claim C5, amended: both rules match only blocks of the restricted
shape: the data expression is nonempty and free of commas and right
braces, the rule A message value is nonempty and free of right braces, the
rule B message value starts with error dot response, and the matched text
ends with a right brace directly followed by a semicolon plus trailing
whitespace.  A block outside this shape is never itself the matched text,
though it can still be destroyed as part of an enclosing match. -/
theorem claim5_matched_shape :
    (∀ (s pre suf : List Char) (caps : Caps),
      firstMatch ruleA s = some (pre, caps, suf) →
      ∃ t, s = pre ++ (t ++ suf) ∧
        ∃ g1 wa wb m g2,
          t = g1 ++ (wa ++ ("message:".data ++ (wb ++ (m ++ g2)))) ∧
          HeadShape "true,".data g1 ∧ m ≠ [] ∧ (∀ a ∈ m, a ≠ rbr) ∧
          CloseShape g2) ∧
    (∀ (s pre suf : List Char) (caps : Caps),
      firstMatch ruleB s = some (pre, caps, suf) →
      ∃ t, s = pre ++ (t ++ suf) ∧
        ∃ g1 wa wb lz wc g3,
          t = g1 ++ (wa ++ ("message:".data ++ (wb ++ (("error.response".data ++ lz)
            ++ (wc ++ g3))))) ∧
          HeadShape "false,".data g1 ∧ CloseShape g3) := by
  constructor
  · intro s pre suf caps h
    obtain ⟨t, hs, hacc⟩ := firstMatch_sound h
    obtain ⟨g1, wa, wb, m, g2, rfl, _, hshape, _, _, hmne, hmbr, hclose⟩ :=
      accepts_ruleA_inv hacc
    exact ⟨_, hs, g1, wa, wb, m, g2, rfl, hshape, hmne, hmbr, hclose⟩
  · intro s pre suf caps h
    obtain ⟨t, hs, hacc⟩ := firstMatch_sound h
    obtain ⟨g1, wa, wb, lz, wc, g3, rfl, _, hshape, _, _, _, hclose⟩ :=
      accepts_ruleB_inv hacc
    exact ⟨_, hs, g1, wa, wb, lz, wc, g3, rfl, hshape, hclose⟩

/-- Claim C5, witness: the amended theorem evaluated on one matching block
per rule. -/
theorem claim5_witness :
    (∃ t, c5witA = ([] : List Char) ++ (t ++ ([] : List Char)) ∧
      ∃ g1 wa wb m g2,
        t = g1 ++ (wa ++ ("message:".data ++ (wb ++ (m ++ g2)))) ∧
        HeadShape "true,".data g1 ∧ m ≠ [] ∧ (∀ a ∈ m, a ≠ rbr) ∧
        CloseShape g2) ∧
    (∃ t, c5witB = ([] : List Char) ++ (t ++ ([] : List Char)) ∧
      ∃ g1 wa wb lz wc g3,
        t = g1 ++ (wa ++ ("message:".data ++ (wb ++ (("error.response".data ++ lz)
          ++ (wc ++ g3))))) ∧
        HeadShape "false,".data g1 ∧ CloseShape g3) :=
  ⟨claim5_matched_shape.1 c5witA [] [] c5witACaps (by decide),
   claim5_matched_shape.2 c5witB [] [] c5witBCaps (by decide)⟩

/-- Claim C6, counterexample: the two rules are not order-independent.
Here a success-false block lies inside the message of an enclosing
success-true block: rule A first deletes it, after which rule B finds
nothing; rule B first rewrites the inner block, inserting a right brace
that then blocks the rule A match.  The two orders give different texts. -/
theorem claim6_counterexample :
    subA (subB c6in) ≠ subB (subA c6in) := by decide

/-- Claim C6, amended: the two substitutions commute on every input where
one of the rules matches neither the input nor the output of the other
rule; overlapping matches as in the counterexample break commutativity. -/
theorem claim6_commute_when_disjoint (s : List Char) :
    (firstMatch ruleA s = none → firstMatch ruleA (subB s) = none →
      subB (subA s) = subA (subB s)) ∧
    (firstMatch ruleB s = none → firstMatch ruleB (subA s) = none →
      subB (subA s) = subA (subB s)) := by
  constructor
  · intro h1 h2
    have e1 : subA s = s := scanSub_none h1
    have e2 : subA (subB s) = subB s := scanSub_none h2
    rw [e1, e2]
  · intro h1 h2
    have e1 : subB s = s := scanSub_none h1
    have e2 : subB (subA s) = subA s := scanSub_none h2
    rw [e1, e2]

/-- Claim C6, witness: the amended theorem evaluated on a success-false
block that rule A matches neither before nor after rule B runs. -/
theorem claim6_witness :
    firstMatch ruleA c6wit = none ∧
    firstMatch ruleA (subB c6wit) = none ∧
    subB (subA c6wit) = subA (subB c6wit) :=
  ⟨by decide, by decide, (claim6_commute_when_disjoint c6wit).1 (by decide) (by decide)⟩

/-- Claim C7: determinism.  The run of the script is a function of the
read file content alone; in particular two runs at different wall-clock
times give identical results, because the replacement inserts the fixed
literal text of the timestamp expression rather than a computed time. -/
theorem claim7_deterministic (t1 t2 : String) (av : List String)
    (vs : List (String × String)) (r : Option String) (d : String) :
    runScriptEnv ⟨t1, av, vs⟩ r d = runScriptEnv ⟨t2, av, vs⟩ r d := rfl

/-- Claim C8: on a successful run the trace is read, write, print; the
print effects of the trace are exactly one line with the fixed message,
and that print sits after the write in program order. -/
theorem claim8_print_once_after_write (c d : String) :
    (runScript (some c) d).2 =
      [Effect.readFile targetPath utf8,
       Effect.writeFile targetPath utf8 (transformStr c),
       Effect.printLine doneMsg] ∧
    ((runScript (some c) d).2.filter isPrintEff) = [Effect.printLine doneMsg] ∧
    (runScript (some c) d).2[1]? = some (Effect.writeFile targetPath utf8 (transformStr c)) ∧
    (runScript (some c) d).2[2]? = some (Effect.printLine doneMsg) ∧
    doneMsg = "Fixed contentService.ts" :=
  ⟨rfl, rfl, rfl, rfl, rfl⟩

/-- Claim C9: the script reads and writes one fixed hard-coded relative
path, both in UTF-8; the write replaces the whole prior disk content with
the transformed text whatever it was; and the run never depends on
arguments or environment variables. -/
theorem claim9_fixed_path_io (c d : String) :
    ((runScript (some c) d).2.filter isReadEff) = [Effect.readFile targetPath utf8] ∧
    ((runScript (some c) d).2.filter isWriteEff) =
      [Effect.writeFile targetPath utf8 (transformStr c)] ∧
    (runScript (some c) d).1 = transformStr c ∧
    targetPath = "frontend/src/features/admin/services/contentService.ts" ∧
    utf8 = "utf-8" ∧
    (∀ (t : String) (a1 a2 : List String) (v1 v2 : List (String × String))
      (r : Option String) (d2 : String),
      runScriptEnv ⟨t, a1, v1⟩ r d2 = runScriptEnv ⟨t, a2, v2⟩ r d2) :=
  ⟨rfl, rfl, rfl, rfl, rfl, fun _ _ _ _ _ _ _ => rfl⟩

/-- Claim C10: when opening, reading or decoding fails, the run performs
no write and no print and the on-disk content stays what it was. -/
theorem claim10_read_error_no_write (d : String) :
    (runScript none d).1 = d ∧
    ((runScript none d).2.filter isWriteEff) = ([] : List Effect) ∧
    ((runScript none d).2.filter isPrintEff) = ([] : List Effect) ∧
    (runScript none d).2 = [Effect.readFile targetPath utf8] :=
  ⟨rfl, rfl, rfl, rfl⟩

end CSFix
